import Mathlib

/-!
Verification of the estimator core of `algo.py` (rating-prediction system).

The Python source is shallowly embedded here:
* the sparse rating relation `rm` (0 = absent) becomes a `RatingRelation`;
  its two views `xr`/`yr` are derived as the ordered lists of nonzero
  entries, which is exactly the data-model invariant the code relies on;
* numpy float matrices become `Mat := Nat × Nat → Option ℚ`; a cell holds
  `none` until it is written, modelling `np.empty`'s unspecified contents;
  matrix values are exact rationals (the code computes in float64);
* `np.sqrt` appears only inside the cosine similarity value, and no claim
  depends on the numeric value of a square root, so it is abstracted as an
  explicit parameter `sq : ℚ → ℚ` (the real instantiation is the real
  square root);
* `np.average(v, weights=w)` raising `ZeroDivisionError` on zero weight
  sum, caught by the callers, becomes an explicit zero test;
* Python's stable `sorted(key=..., reverse=True)` becomes the stable
  descending insertion sort `sortDesc`.
-/

/-- Sparse rating relation over 1-based ids `1..lastX × 1..lastY`;
`rm x y = 0` means absent, a present rating is `1..5`. -/
structure RatingRelation where
  lastX : Nat
  lastY : Nat
  rm : Nat → Nat → Nat

namespace RatingRelation

/-- Derived `byX` view: ordered list of `(y, rating)` for the nonzero
entries of row `x` (the data-model invariant of `self.xr`). -/
def xr (R : RatingRelation) (x : Nat) : List (Nat × Nat) :=
  (List.range' 1 R.lastY).filterMap
    (fun y => if 0 < R.rm x y then some (y, R.rm x y) else none)

/-- Derived `byY` view: ordered list of `(x, rating)` for the nonzero
entries of column `y` (the data-model invariant of `self.yr`). -/
def yr (R : RatingRelation) (y : Nat) : List (Nat × Nat) :=
  (List.range' 1 R.lastX).filterMap
    (fun x => if 0 < R.rm x y then some (x, R.rm x y) else none)

end RatingRelation

/-- `itertools.combinations(l, 2)`: all pairs of elements of `l` in order,
first component strictly before the second. -/
def pairs {α : Type} : List α → List (α × α)
  | [] => []
  | a :: l => l.map (fun b => (a, b)) ++ pairs l

/-- The contributions accumulated at key `(i, j)` by the per-`y` pair loop
of `constructCosineSimMat` / `constructMSDSimMat`: for every `y`, for every
ordered pair `((xi, r1), (xj, r2))` of `combinations(yRatings, 2)` with
`xi = i` and `xj = j`, the rating pair `(r1, r2)`. -/
def coPairs (R : RatingRelation) (i j : Nat) : List (Nat × Nat) :=
  (List.range' 1 R.lastY).flatMap (fun y =>
    (pairs (R.yr y)).filterMap
      (fun p => if p.1.1 = i ∧ p.2.1 = j then some (p.1.2, p.2.2) else none))

/-- Accumulator `freq[i, j]`: number of co-rating contributions. -/
def freq (R : RatingRelation) (i j : Nat) : Nat :=
  (coPairs R i j).length

/-- Accumulator `sqDiff[i, j] = Σ (r1 - r2)**2` of `constructMSDSimMat`. -/
def sqDiff (R : RatingRelation) (i j : Nat) : Int :=
  ((coPairs R i j).map (fun p => ((p.1 : Int) - p.2) ^ 2)).sum

/-- Accumulator `prods[i, j] = Σ r1 * r2` of `constructCosineSimMat`. -/
def prods (R : RatingRelation) (i j : Nat) : Nat :=
  ((coPairs R i j).map (fun p => p.1 * p.2)).sum

/-- Accumulator `sqi[i, j] = Σ r1**2` of `constructCosineSimMat`. -/
def sqi (R : RatingRelation) (i j : Nat) : Nat :=
  ((coPairs R i j).map (fun p => p.1 ^ 2)).sum

/-- Accumulator `sqj[i, j] = Σ r2**2` of `constructCosineSimMat`. -/
def sqj (R : RatingRelation) (i j : Nat) : Nat :=
  ((coPairs R i j).map (fun p => p.2 ^ 2)).sum

/-- The value written for the pair `(i, j)` by the fill loop of
`constructMSDSimMat`: `freq` when `sqDiff == 0`, else `freq / sqDiff`. -/
def msdVal (R : RatingRelation) (i j : Nat) : ℚ :=
  if sqDiff R i j = 0 then (freq R i j : ℚ)
  else (freq R i j : ℚ) / (sqDiff R i j : ℚ)

/-- The value written for the pair `(i, j)` by the fill loop of
`constructCosineSimMat`: `0` when `freq == 0`, else
`prods / sqrt(sqi * sqj)`; `sq` abstracts `np.sqrt`. -/
def cosVal (sq : ℚ → ℚ) (R : RatingRelation) (i j : Nat) : ℚ :=
  if freq R i j = 0 then 0
  else (prods R i j : ℚ) / sq ((sqi R i j : ℚ) * (sqj R i j : ℚ))

/-- A similarity matrix cell store; `none` models a cell of `np.empty`
that was never written (its float contents are unspecified). -/
def Mat : Type := Nat × Nat → Option ℚ

/-- One assignment `simMat[i, j] = v`. -/
def writeCell (m : Mat) (i j : Nat) (v : ℚ) : Mat :=
  fun c => if c = (i, j) then some v else m c

/-- Inner fill loop shared by both matrix constructions: for each `xj` of
`xjs` perform `simMat[xi, xj] = v xi xj` then `simMat[xj, xi] = simMat[xi, xj]`. -/
def fillRow (v : Nat → Nat → ℚ) (xi : Nat) (xjs : List Nat) (m : Mat) : Mat :=
  xjs.foldl (fun m xj => writeCell (writeCell m xi xj (v xi xj)) xj xi (v xi xj)) m

/-- Outer fill loop shared by both matrix constructions: for `xi` in
`1..lastX`, write the diagonal value `diag`, then run the inner loop over
`xj` in `xi+d .. lastX` (`d = 1` for cosine, `d = 0` for MSD). -/
def fillMat (v : Nat → Nat → ℚ) (diag : ℚ) (d lastX : Nat) : Mat :=
  (List.range' 1 lastX).foldl
    (fun m xi => fillRow v xi (List.range' (xi + d) (lastX + 1 - (xi + d))) (writeCell m xi xi diag))
    (fun _ => none)

/-- `AlgoUsingSim.constructCosineSimMat`: diagonal `1`, inner loop over
`range(xi + 1, lastXi + 1)`, cell value `cosVal`. -/
def constructCosineSimMat (sq : ℚ → ℚ) (R : RatingRelation) : Mat :=
  fillMat (cosVal sq R) 1 1 R.lastX

/-- `AlgoUsingSim.constructMSDSimMat`: diagonal assignment `100`, inner
loop over `range(xi, lastXi + 1)` (which includes `xj = xi`), cell value
`msdVal`. -/
def constructMSDSimMat (R : RatingRelation) : Mat :=
  fillMat (msdVal R) 100 0 R.lastX

/-- `AlgoUsingSim.constructSimMat`: reject names outside
`['cos', 'MSD', 'MSDClone']` (`NameError`, modelled as `none`); allocate
`np.empty` and fill it for `'cos'` and `'MSD'`; for `'MSDClone'` the
allocated matrix is returned with no cell ever written. -/
def constructSimMat (sq : ℚ → ℚ) (sim : String) (R : RatingRelation) : Option Mat :=
  if sim = "cos" ∨ sim = "MSD" ∨ sim = "MSDClone" then
    some (if sim = "cos" then constructCosineSimMat sq R
          else if sim = "MSD" then constructMSDSimMat R
          else fun _ => none)
  else none

/-- `AlgoUsingSim.simMSDClone`: on-demand similarity; `Yij` is the list of
`y` rated by `xi` (in `xr` order) that `xj` also rated; `0` when empty,
else co-rating count over the sum of squared deviations of the rating
differences from their mean (the count itself when that sum is zero). -/
def simMSDClone (R : RatingRelation) (xi xj : Nat) : ℚ :=
  let Yij := (R.xr xi).filterMap (fun p => if 0 < R.rm xj p.1 then some p.1 else none)
  if Yij = [] then 0
  else
    let meanDiff : ℚ := ((Yij.map (fun y => (R.rm xi y : ℚ) - (R.rm xj y : ℚ))).sum) / (Yij.length : ℚ)
    let ssd : ℚ := ((Yij.map (fun y => ((R.rm xi y : ℚ) - (R.rm xj y : ℚ) - meanDiff) ^ 2)).sum)
    if ssd = 0 then (Yij.length : ℚ) else (Yij.length : ℚ) / ssd

/-- `Algo.getx0y0`: reinterpret a `(u0, m0)` query under the orientation
flag `ub` (user-based when true). -/
def getx0y0 (ub : Bool) (u0 m0 : Nat) : Nat × Nat :=
  if ub then (u0, m0) else (m0, u0)

/-- The list comprehension of `AlgoBasicCollaborative.estimate` (also used
by `AlgoCollabMeanDiff.estimate`): `(x, simMat[x0, x])` for every `x` in
`1..lastXi` that rated `y0`; a never-written matrix cell reads as `0`
(no claim evaluates such a read). -/
def simX0list (simMat : Mat) (R : RatingRelation) (x0 y0 : Nat) : List (Nat × ℚ) :=
  ((List.range' 1 R.lastX).filter (fun x => decide (0 < R.rm x y0))).map
    (fun x => (x, (simMat (x0, x)).getD 0))

/-- Stable insertion into a descending-by-similarity list: the new element
goes after every element with a strictly greater key. -/
def insertDesc (p : Nat × ℚ) : List (Nat × ℚ) → List (Nat × ℚ)
  | [] => [p]
  | q :: l => if p.2 < q.2 then q :: insertDesc p l else p :: q :: l

/-- Python's stable `sorted(simX0, key=sim, reverse=True)`. -/
def sortDesc (l : List (Nat × ℚ)) : List (Nat × ℚ) :=
  l.foldr insertDesc []

/-- `np.average(vals, weights=ws)` with the caller's
`except ZeroDivisionError: est = 0`: `0` when the weights sum to zero,
else the weighted average. -/
def npAverageOr0 (vals ws : List ℚ) : ℚ :=
  if ws.sum = 0 then 0 else (List.zipWith (· * ·) vals ws).sum / ws.sum

/-- `AlgoBasicCollaborative.estimate` (KNN-Collaborative, `k = 40`). -/
def estimateBasicCollab (ub : Bool) (simMat : Mat) (R : RatingRelation) (u0 m0 : Nat) : ℚ :=
  let p := getx0y0 ub u0 m0
  let simX0 := simX0list simMat R p.1 p.2
  if simX0 = [] then 0
  else
    let top := (sortDesc simX0).take 40
    npAverageOr0 (top.map (fun q => (R.rm q.1 p.2 : ℚ))) (top.map (fun q => q.2))

/-- Global mean `self.mu = np.mean([r for l in self.rm for r in l if r > 0])`:
the matrix rows are indexed `0..lastX`, columns `0..lastY`. -/
def mu (R : RatingRelation) : ℚ :=
  let rs := (List.range' 0 (R.lastX + 1)).flatMap
    (fun x => ((List.range' 0 (R.lastY + 1)).map (R.rm x)).filter (fun r => decide (0 < r)))
  ((rs.map (fun r : Nat => (r : ℚ))).sum) / (rs.length : ℚ)

/-- A pair of bias vectors `(xBiases, yBiases)`, index `0` unused. -/
def Biases : Type := (Nat → ℚ) × (Nat → ℚ)

/-- `Algo.iterAllRatings`: every `(x, y, r)` of the `xr` view in order. -/
def iterAllRatings (R : RatingRelation) : List (Nat × Nat × Nat) :=
  (List.range' 1 R.lastX).flatMap (fun x => (R.xr x).map (fun p => (x, p.1, p.2)))

/-- One SGD update of `AlgoWithBaseline.optimize_sgd`: `err` is computed
from the current biases, then `xBiases[x]` and `yBiases[y]` are updated
with learning rate `0.005` and penalty `0.02`. -/
def sgdStep (m : ℚ) (st : Biases) (t : Nat × Nat × Nat) : Biases :=
  let err : ℚ := (t.2.2 : ℚ) - (m + st.1 t.1 + st.2 t.2.1)
  (Function.update st.1 t.1 (st.1 t.1 + (1 / 200) * (err - (1 / 50) * st.1 t.1)),
   Function.update st.2 t.2.1 (st.2 t.2.1 + (1 / 200) * (err - (1 / 50) * st.2 t.2.1)))

/-- `AlgoWithBaseline.optimize_sgd`: 20 passes over `iterAllRatings`,
starting from all-zero biases. -/
def optimize_sgd (R : RatingRelation) (m : ℚ) : Biases :=
  (List.range' 0 20).foldl (fun st _ => (iterAllRatings R).foldl (sgdStep m) st)
    (fun _ => 0, fun _ => 0)

/-- The y-sweep of `AlgoWithBaseline.optimize_als`: zero all `yBiases`,
then for `y` in `1..lastYi` set
`yBiases[y] = Σ (r - mu - xBiases[x]) / (reg_y + |yr[y]|)`. -/
def alsY (R : RatingRelation) (m regy : ℚ) (xB : Nat → ℚ) : Nat → ℚ :=
  fun y => if 1 ≤ y ∧ y ≤ R.lastY then
    (((R.yr y).map (fun p => (p.2 : ℚ) - m - xB p.1)).sum) / (regy + ((R.yr y).length : ℚ))
  else 0

/-- The x-sweep of `AlgoWithBaseline.optimize_als`, symmetric to `alsY`. -/
def alsX (R : RatingRelation) (m regx : ℚ) (yB : Nat → ℚ) : Nat → ℚ :=
  fun x => if 1 ≤ x ∧ x ≤ R.lastX then
    (((R.xr x).map (fun p => (p.2 : ℚ) - m - yB p.1)).sum) / (regx + ((R.xr x).length : ℚ))
  else 0

/-- One iteration of `AlgoWithBaseline.optimize_als`: a full y-sweep from
the current x-biases, then a full x-sweep from the just-updated y-biases. -/
def alsSweep (R : RatingRelation) (m regx regy : ℚ) (st : Biases) : Biases :=
  let yB := alsY R m regy st.1
  (alsX R m regx yB, yB)

/-- `AlgoWithBaseline.optimize_als`: `reg_u = 15`, `reg_i = 10` mapped to
the X/Y roles by the orientation, 10 iterations from all-zero biases. -/
def optimize_als (R : RatingRelation) (ub : Bool) (m : ℚ) : Biases :=
  (List.range' 0 10).foldl
    (fun st _ => alsSweep R m (if ub then 15 else 10) (if ub then 10 else 15) st)
    (fun _ => 0, fun _ => 0)

/-- The bias fit of `AlgoWithBaseline.__init__`: `sgd` and `als` run the
respective optimizer; any other method name leaves the biases zero. -/
def fitBiases (R : RatingRelation) (ub : Bool) (method : String) : Biases :=
  if method = "sgd" then optimize_sgd R (mu R)
  else if method = "als" then optimize_als R ub (mu R)
  else (fun _ => 0, fun _ => 0)

/-- `AlgoWithBaseline.getBaseline`. -/
def getBaseline (R : RatingRelation) (bs : Biases) (x y : Nat) : ℚ :=
  mu R + bs.1 x + bs.2 y

/-- `AlgoBaselineOnly.estimate`. -/
def estimateBaselineOnly (R : RatingRelation) (ub : Bool) (method : String) (u0 m0 : Nat) : ℚ :=
  let p := getx0y0 ub u0 m0
  getBaseline R (fitBiases R ub method) p.1 p.2

/-- `AlgoClone.isClone`: with `w` the componentwise difference of the two
rating vectors, test `Σ |w_i - k| <= len(w)`. -/
def isClone (xa xb : List Int) (k : Int) : Bool :=
  let w := List.zipWith (· - ·) xa xb
  decide ((w.map (fun wi => |wi - k|)).sum ≤ (w.length : Int))

/-- The common-rating list of `AlgoClone.estimate` (and
`AlgoMeanDiff.estimate`): `(rm[x0, y], rm[x, y])` for every `(y, _)` of
`xr[x0]` with `rm[x, y] > 0`. -/
def commonRatings (R : RatingRelation) (x0 x : Nat) : List (Int × Int) :=
  (R.xr x0).filterMap
    (fun q => if 0 < R.rm x q.1 then some ((R.rm x0 q.1 : Int), (R.rm x q.1 : Int)) else none)

/-- The candidate list of `AlgoClone.estimate`: for every `(x, rx)` that
rated `y0` and has common ratings with `x0`, every offset `k` in `-4..4`
passing `isClone` contributes `rx + k`. -/
def cloneCandidates (R : RatingRelation) (x0 y0 : Nat) : List Int :=
  (R.yr y0).flatMap (fun p =>
    let common := commonRatings R x0 p.1
    if common = [] then []
    else ((List.range' 0 9).map (fun n => (n : Int) - 4)).filterMap
      (fun k => if isClone (common.map (·.1)) (common.map (·.2)) k then some ((p.2 : Int) + k) else none))

/-- `AlgoClone.estimate`: `np.mean(candidates)` when non-empty, else the
impossible sentinel `0`. -/
def estimateClone (R : RatingRelation) (ub : Bool) (u0 m0 : Nat) : ℚ :=
  let p := getx0y0 ub u0 m0
  let cs := cloneCandidates R p.1 p.2
  if cs = [] then 0 else ((cs.map (fun c : Int => (c : ℚ))).sum) / (cs.length : ℚ)

/-- `Algo.updatePreds` on the estimate: the sentinel `0` is recorded as
`wasImpossible` and replaced by the default value `3`. -/
def updatePreds (est : ℚ) : Bool × ℚ :=
  if est = 0 then (true, 3) else (false, est)

/-- `AlgoRandom.__init__` histogram slot for rating `r`: the number of
cells with `rm[x, y] = r` for `x` in `range(1, lastXi)` and `y` in
`range(1, lastYi)` (these are `1..lastX-1` and `1..lastY-1`). -/
def fqs (R : RatingRelation) (r : Nat) : Nat :=
  ((List.range' 1 (R.lastX - 1)).flatMap
    (fun x => (List.range' 1 (R.lastY - 1)).filter (fun y => decide (R.rm x y = r)))).length

/-- Modelled from the spec: the histogram the Random estimator is
specified to build, over the whole relation `1..lastX × 1..lastY`. -/
def fqsSpec (R : RatingRelation) (r : Nat) : Nat :=
  ((List.range' 1 R.lastX).flatMap
    (fun x => (List.range' 1 R.lastY).filter (fun y => decide (R.rm x y = r)))).length

/-- Number of `y` in `1..lastY` rated by both `i` and `j` (the co-rating
count of the spec). -/
def coCount (R : RatingRelation) (i j : Nat) : Nat :=
  ((List.range' 1 R.lastY).filter (fun y => decide (0 < R.rm i y ∧ 0 < R.rm j y))).length

/-- Accumulated squared rating difference of `i` and `j` over their shared
`y` entities. -/
def coSqDiff (R : RatingRelation) (i j : Nat) : Int :=
  (((List.range' 1 R.lastY).filter (fun y => decide (0 < R.rm i y ∧ 0 < R.rm j y))).map
    (fun y => ((R.rm i y : Int) - (R.rm j y : Int)) ^ 2)).sum

/-! ### Cell-level analysis of the matrix fill loops -/

/-- Reading any cell after the double write
`simMat[xi, xj] = v; simMat[xj, xi] = v`. -/
theorem write2_read (m : Mat) (xi x : Nat) (v : ℚ) (c : Nat × Nat) :
    writeCell (writeCell m xi x v) x xi v c =
      if c = (xi, x) ∨ c = (x, xi) then some v else m c := by
  by_cases h1 : c = (x, xi) <;> by_cases h2 : c = (xi, x) <;>
    simp [writeCell, h1, h2]

/-- After the inner loop, cell `(xi, b)` holds `v xi b` when `b` was
visited, else its previous content. -/
theorem fillRow_self (v : Nat → Nat → ℚ) (xi b : Nat) (xjs : List Nat) (m : Mat) :
    fillRow v xi xjs m (xi, b) = if b ∈ xjs then some (v xi b) else m (xi, b) := by
  induction xjs generalizing m with
  | nil => simp [fillRow]
  | cons x xs ih =>
    rw [fillRow, List.foldl_cons]
    rw [show (List.foldl (fun m xj => writeCell (writeCell m xi xj (v xi xj)) xj xi (v xi xj)) (writeCell (writeCell m xi x (v xi x)) x xi (v xi x)) xs) = fillRow v xi xs (writeCell (writeCell m xi x (v xi x)) x xi (v xi x)) from rfl]
    rw [ih, write2_read]
    by_cases hb : b ∈ xs
    · simp [hb]
    · by_cases hx : b = x
      · subst hx
        simp [hb]
      · have : ¬((xi, b) = (xi, x) ∨ (xi, b) = (x, xi)) := by
          rintro (h | h) <;> injection h with h1 h2 <;> omega
        have hmem : b ∉ x :: xs := by simp [hx, hb]
        rw [if_neg hb, if_neg this, if_neg hmem]

/-- After the inner loop, the mirror cell `(b, xi)` holds `v xi b` when
`b` was visited, else its previous content. -/
theorem fillRow_mirror (v : Nat → Nat → ℚ) (xi b : Nat) (xjs : List Nat) (m : Mat) :
    fillRow v xi xjs m (b, xi) = if b ∈ xjs then some (v xi b) else m (b, xi) := by
  induction xjs generalizing m with
  | nil => simp [fillRow]
  | cons x xs ih =>
    rw [fillRow, List.foldl_cons]
    rw [show (List.foldl (fun m xj => writeCell (writeCell m xi xj (v xi xj)) xj xi (v xi xj)) (writeCell (writeCell m xi x (v xi x)) x xi (v xi x)) xs) = fillRow v xi xs (writeCell (writeCell m xi x (v xi x)) x xi (v xi x)) from rfl]
    rw [ih, write2_read]
    by_cases hb : b ∈ xs
    · simp [hb]
    · by_cases hx : b = x
      · subst hx
        simp [hb]
      · have : ¬((b, xi) = (xi, x) ∨ (b, xi) = (x, xi)) := by
          rintro (h | h) <;> injection h with h1 h2 <;> omega
        have hmem : b ∉ x :: xs := by simp [hx, hb]
        rw [if_neg hb, if_neg this, if_neg hmem]

/-- The inner loop leaves every cell outside row and column `xi` alone,
and also the cells of column `xi` whose row index was not visited. -/
theorem fillRow_preserve (v : Nat → Nat → ℚ) (xi : Nat) (xjs : List Nat) (m : Mat)
    (c : Nat × Nat) (h1 : c.1 ≠ xi) (h2 : c.2 ≠ xi ∨ c.1 ∉ xjs) :
    fillRow v xi xjs m c = m c := by
  induction xjs generalizing m with
  | nil => simp [fillRow]
  | cons x xs ih =>
    rw [fillRow, List.foldl_cons]
    rw [show (List.foldl (fun m xj => writeCell (writeCell m xi xj (v xi xj)) xj xi (v xi xj)) (writeCell (writeCell m xi x (v xi x)) x xi (v xi x)) xs) = fillRow v xi xs (writeCell (writeCell m xi x (v xi x)) x xi (v xi x)) from rfl]
    have h2' : c.2 ≠ xi ∨ c.1 ∉ xs := by
      rcases h2 with h | h
      · exact Or.inl h
      · exact Or.inr (fun hc => h (List.mem_cons_of_mem _ hc))
    rw [ih _ h2']
    have : ¬(c = (xi, x) ∨ c = (x, xi)) := by
      rintro (h | h)
      · exact h1 (by rw [h])
      · rcases h2 with hne | hn
        · exact hne (by rw [h])
        · exact hn (by rw [h]; exact List.mem_cons_self x xs)
    rw [write2_read]
    simp [this]

/-- One outer-loop iteration `outerStep`: diagonal write then inner loop. -/
def outerStep (v : Nat → Nat → ℚ) (diag : ℚ) (d lastX : Nat) (m : Mat) (xi : Nat) : Mat :=
  fillRow v xi (List.range' (xi + d) (lastX + 1 - (xi + d))) (writeCell m xi xi diag)

theorem fillMat_eq_foldl (v : Nat → Nat → ℚ) (diag : ℚ) (d lastX : Nat) :
    fillMat v diag d lastX = (List.range' 1 lastX).foldl (outerStep v diag d lastX) (fun _ => none) := rfl

/-- An outer iteration at `xi > i` does not touch `(i, j)` or `(j, i)`
when `i ≤ j`. -/
theorem outerStep_preserve_gt (v : Nat → Nat → ℚ) (diag : ℚ) (d lastX : Nat)
    (m : Mat) (xi i j : Nat) (hij : i ≤ j) (hgt : i < xi) :
    outerStep v diag d lastX m xi (i, j) = m (i, j) ∧
    outerStep v diag d lastX m xi (j, i) = m (j, i) := by
  unfold outerStep
  constructor
  · rw [fillRow_preserve]
    · rw [writeCell]
      have : ¬((i, j) = (xi, xi)) := by intro h; injection h with h1 h2; omega
      simp [this]
    · intro h; omega
    · by_cases hj : j = xi
      · right
        intro hmem
        rw [List.mem_range'_1] at hmem
        omega
      · exact Or.inl hj
  · by_cases hj : j = xi
    · subst hj
      rw [fillRow_self]
      have hnm : i ∉ List.range' (j + d) (lastX + 1 - (j + d)) := by
        intro hmem; rw [List.mem_range'_1] at hmem; omega
      rw [if_neg hnm, writeCell]
      have : ¬((j, i) = (j, j)) := by intro h; injection h with h1 h2; omega
      simp [this]
    · rw [fillRow_preserve]
      · rw [writeCell]
        have : ¬((j, i) = (xi, xi)) := by intro h; injection h with h1 h2; omega
        simp [this]
      · exact hj
      · left; intro h; omega

/-- An outer iteration at `xi < i` does not touch `(i, j)` or `(j, i)`
when `i ≤ j`. -/
theorem outerStep_preserve_lt (v : Nat → Nat → ℚ) (diag : ℚ) (d lastX : Nat)
    (m : Mat) (xi i j : Nat) (_hij : i ≤ j) (hlt : xi < i) :
    outerStep v diag d lastX m xi (i, j) = m (i, j) ∧
    outerStep v diag d lastX m xi (j, i) = m (j, i) := by
  unfold outerStep
  have hdiag1 : ¬((i, j) = (xi, xi)) := by intro h; injection h with h1 h2; omega
  have hdiag2 : ¬((j, i) = (xi, xi)) := by intro h; injection h with h1 h2; omega
  constructor
  · rw [fillRow_preserve]
    · simp [writeCell, hdiag1]
    · intro h; omega
    · left; intro h; omega
  · rw [fillRow_preserve]
    · simp [writeCell, hdiag2]
    · intro h; omega
    · left; intro h; omega

/-- The tail of the outer loop, running only over indices `> i`, leaves
`(i, j)` and `(j, i)` alone. -/
theorem outerFold_preserve (v : Nat → Nat → ℚ) (diag : ℚ) (d lastX : Nat)
    (L : List Nat) (m : Mat) (i j : Nat) (hij : i ≤ j) (hL : ∀ xi ∈ L, i < xi) :
    (L.foldl (outerStep v diag d lastX) m) (i, j) = m (i, j) ∧
    (L.foldl (outerStep v diag d lastX) m) (j, i) = m (j, i) := by
  induction L generalizing m with
  | nil => simp
  | cons x xs ih =>
    rw [List.foldl_cons]
    have hx := hL x (List.mem_cons_self x xs)
    have hpres := outerStep_preserve_gt v diag d lastX m x i j hij hx
    have := ih (outerStep v diag d lastX m x) (fun xi hxi => hL xi (List.mem_cons_of_mem _ hxi))
    exact ⟨this.1.trans hpres.1, this.2.trans hpres.2⟩

/-- Main cell lemma for the fill loops: once the outer loop has passed
`xi = i`, both `(i, j)` and its mirror hold the pair value `v i j`
(`i ≤ j`; for the diagonal this needs the inner loop to start at `xi`,
i.e. `d = 0`). -/
theorem outerFold_cell (v : Nat → Nat → ℚ) (diag : ℚ) (d lastX : Nat)
    (i j : Nat) (hij : i ≤ j) (hj : j ≤ lastX) (hd : d ≤ 1) (hdij : i < j ∨ d = 0) :
    ∀ len lo (m : Mat), lo ≤ i → i < lo + len →
      ((List.range' lo len).foldl (outerStep v diag d lastX) m) (i, j) = some (v i j) ∧
      ((List.range' lo len).foldl (outerStep v diag d lastX) m) (j, i) = some (v i j) := by
  intro len
  induction len with
  | zero => intro lo m h1 h2; omega
  | succ n ih =>
    intro lo m h1 h2
    rw [List.range'_succ, List.foldl_cons]
    by_cases hlo : lo = i
    · subst hlo
      have hmem : j ∈ List.range' (lo + d) (lastX + 1 - (lo + d)) := by
        rw [List.mem_range'_1]
        omega
      have hcell : outerStep v diag d lastX m lo (lo, j) = some (v lo j) := by
        unfold outerStep
        rw [fillRow_self, if_pos hmem]
      have hcell2 : outerStep v diag d lastX m lo (j, lo) = some (v lo j) := by
        unfold outerStep
        rw [fillRow_mirror, if_pos hmem]
      have hpres := outerFold_preserve v diag d lastX (List.range' (lo + 1) n)
        (outerStep v diag d lastX m lo) lo j hij
        (fun xi hxi => by rw [List.mem_range'_1] at hxi; omega)
      exact ⟨hpres.1.trans hcell, hpres.2.trans hcell2⟩
    · have hlt : lo < i := by omega
      have hpres := outerStep_preserve_lt v diag d lastX m lo i j hij hlt
      have := ih (lo + 1) (outerStep v diag d lastX m lo) (by omega) (by omega)
      exact this

/-- When the inner loop starts at `xi + 1` (cosine), the diagonal keeps
the value written by `simMat[xi, xi] = diag`. -/
theorem outerFold_diag1 (v : Nat → Nat → ℚ) (diag : ℚ) (lastX : Nat) (i : Nat) :
    ∀ len lo (m : Mat), lo ≤ i → i < lo + len →
      ((List.range' lo len).foldl (outerStep v diag 1 lastX) m) (i, i) = some diag := by
  intro len
  induction len with
  | zero => intro lo m h1 h2; omega
  | succ n ih =>
    intro lo m h1 h2
    rw [List.range'_succ, List.foldl_cons]
    by_cases hlo : lo = i
    · subst hlo
      have hcell : outerStep v diag 1 lastX m lo (lo, lo) = some diag := by
        unfold outerStep
        rw [fillRow_self]
        have hnm : lo ∉ List.range' (lo + 1) (lastX + 1 - (lo + 1)) := by
          intro hmem; rw [List.mem_range'_1] at hmem; omega
        rw [if_neg hnm, writeCell, if_pos rfl]
      have hpres := outerFold_preserve v diag 1 lastX (List.range' (lo + 1) n)
        (outerStep v diag 1 lastX m lo) lo lo le_rfl
        (fun xi hxi => by rw [List.mem_range'_1] at hxi; omega)
      exact hpres.1.trans hcell
    · have := outerStep_preserve_lt v diag 1 lastX m lo i i le_rfl (by omega)
      exact ih (lo + 1) (outerStep v diag 1 lastX m lo) (by omega) (by omega)

/-- Cosine matrix, diagonal cell: always `1` for ids in range. -/
theorem cosine_diag (sq : ℚ → ℚ) (R : RatingRelation) (i : Nat)
    (h1 : 1 ≤ i) (h2 : i ≤ R.lastX) :
    constructCosineSimMat sq R (i, i) = some 1 := by
  unfold constructCosineSimMat
  rw [fillMat_eq_foldl]
  exact outerFold_diag1 (cosVal sq R) 1 R.lastX i R.lastX 1 (fun _ => none) h1 (by omega)

/-- Cosine matrix, off-diagonal cells: both `(i, j)` and `(j, i)` hold
the pair value `cosVal (min i j) (max i j)` written in iteration `min`. -/
theorem cosine_cell (sq : ℚ → ℚ) (R : RatingRelation) (i j : Nat)
    (hij : i < j) (hj : j ≤ R.lastX) (h1 : 1 ≤ i) :
    constructCosineSimMat sq R (i, j) = some (cosVal sq R i j) ∧
    constructCosineSimMat sq R (j, i) = some (cosVal sq R i j) := by
  unfold constructCosineSimMat
  rw [fillMat_eq_foldl]
  exact outerFold_cell (cosVal sq R) 1 1 R.lastX i j (le_of_lt hij) hj le_rfl
    (Or.inl hij) R.lastX 1 (fun _ => none) h1 (by omega)

/-- MSD matrix: every cell `(i, j)` with `i ≤ j` in range holds
`msdVal i j`, and so does the mirror `(j, i)`; in particular the
`simMat[xi, xi] = 100` write is overwritten by the inner loop at
`xj = xi`. -/
theorem msd_cell (R : RatingRelation) (i j : Nat)
    (hij : i ≤ j) (hj : j ≤ R.lastX) (h1 : 1 ≤ i) :
    constructMSDSimMat R (i, j) = some (msdVal R i j) ∧
    constructMSDSimMat R (j, i) = some (msdVal R i j) := by
  unfold constructMSDSimMat
  rw [fillMat_eq_foldl]
  exact outerFold_cell (msdVal R) 100 0 R.lastX i j hij hj (by omega)
    (Or.inr rfl) R.lastX 1 (fun _ => none) h1 (by omega)

/-! ### Characterizing the pair accumulation in terms of the relation -/

/-- Selecting the single entry with x-id `j` from a `yr`-style view over
the id range `lo .. lo+len-1`. -/
theorem yr_select (R : RatingRelation) (y j : Nat) (g : Nat → Nat × Nat) :
    ∀ len lo,
      ((List.range' lo len).filterMap
          (fun x => if 0 < R.rm x y then some (x, R.rm x y) else none)).filterMap
          (fun q => if q.1 = j then some (g q.2) else none) =
        if lo ≤ j ∧ j < lo + len ∧ 0 < R.rm j y then [g (R.rm j y)] else [] := by
  intro len
  induction len with
  | zero => intro lo; simp; omega
  | succ n ih =>
    intro lo
    rw [List.range'_succ]
    by_cases h : 0 < R.rm lo y
    · rw [@List.filterMap_cons_some (Nat) (Nat × Nat) (fun x => if 0 < R.rm x y then some (x, R.rm x y) else none) lo (List.range' (lo + 1) n) (lo, R.rm lo y) (if_pos h)]
      by_cases hj : lo = j
      · subst hj
        rw [@List.filterMap_cons_some (Nat × Nat) (Nat × Nat) (fun q => if q.1 = lo then some (g q.2) else none) (lo, R.rm lo y) (List.filterMap (fun x => if 0 < R.rm x y then some (x, R.rm x y) else none) (List.range' (lo + 1) n)) (g (R.rm lo y)) (if_pos rfl)]
        rw [ih (lo + 1)]
        have hiff : ¬(lo + 1 ≤ lo ∧ lo < lo + 1 + n ∧ 0 < R.rm lo y) := by omega
        rw [if_neg hiff, if_pos ⟨le_rfl, by omega, h⟩]
      · rw [@List.filterMap_cons_none (Nat × Nat) (Nat × Nat) (fun q => if q.1 = j then some (g q.2) else none) (lo, R.rm lo y) (List.filterMap (fun x => if 0 < R.rm x y then some (x, R.rm x y) else none) (List.range' (lo + 1) n)) (if_neg hj)]
        rw [ih (lo + 1)]
        by_cases hc : lo + 1 ≤ j ∧ j < lo + 1 + n ∧ 0 < R.rm j y
        · rw [if_pos hc, if_pos ⟨by omega, by omega, hc.2.2⟩]
        · rw [if_neg hc, if_neg]
          rintro ⟨a, b, c⟩
          exact hc ⟨by omega, by omega, c⟩
    · rw [@List.filterMap_cons_none (Nat) (Nat × Nat) (fun x => if 0 < R.rm x y then some (x, R.rm x y) else none) lo (List.range' (lo + 1) n) (if_neg h)]
      rw [ih (lo + 1)]
      by_cases hc : lo + 1 ≤ j ∧ j < lo + 1 + n ∧ 0 < R.rm j y
      · rw [if_pos hc, if_pos ⟨by omega, by omega, hc.2.2⟩]
      · rw [if_neg hc, if_neg]
        rintro ⟨a, b, c⟩
        have hne : lo ≠ j := by rintro rfl; exact h c
        exact hc ⟨by omega, by omega, c⟩

/-- The `(i, j)`-selected contributions of `combinations(yRatings, 2)` for
one `y`: exactly one pair `(rm[i, y], rm[j, y])` when both `i` and `j`
rated `y` within the id range, nothing otherwise (`i < j`). -/
theorem pairs_select (R : RatingRelation) (y i j : Nat) (hij : i < j) :
    ∀ len lo,
      (pairs ((List.range' lo len).filterMap
          (fun x => if 0 < R.rm x y then some (x, R.rm x y) else none))).filterMap
          (fun p => if p.1.1 = i ∧ p.2.1 = j then some (p.1.2, p.2.2) else none) =
        if lo ≤ i ∧ i < lo + len ∧ j < lo + len ∧ 0 < R.rm i y ∧ 0 < R.rm j y
        then [(R.rm i y, R.rm j y)] else [] := by
  intro len
  induction len with
  | zero =>
    intro lo
    simp [pairs]
    omega
  | succ n ih =>
    intro lo
    rw [List.range'_succ]
    by_cases h : 0 < R.rm lo y
    · rw [@List.filterMap_cons_some (Nat) (Nat × Nat) (fun x => if 0 < R.rm x y then some (x, R.rm x y) else none) lo (List.range' (lo + 1) n) (lo, R.rm lo y) (if_pos h)]
      rw [show pairs ((lo, R.rm lo y) :: (List.range' (lo + 1) n).filterMap (fun x => if 0 < R.rm x y then some (x, R.rm x y) else none)) = ((List.range' (lo + 1) n).filterMap (fun x => if 0 < R.rm x y then some (x, R.rm x y) else none)).map (fun b => ((lo, R.rm lo y), b)) ++ pairs ((List.range' (lo + 1) n).filterMap (fun x => if 0 < R.rm x y then some (x, R.rm x y) else none)) from rfl]
      rw [List.filterMap_append, List.filterMap_map, ih (lo + 1)]
      by_cases hi : lo = i
      · subst hi
        have hfun : ((fun p : (Nat × Nat) × (Nat × Nat) => if p.1.1 = lo ∧ p.2.1 = j then some (p.1.2, p.2.2) else none) ∘ (fun b => ((lo, R.rm lo y), b))) = (fun q : Nat × Nat => if q.1 = j then some ((fun r => (R.rm lo y, r)) q.2) else none) := by
          funext b
          by_cases hb : b.1 = j <;> simp [hb]
        rw [hfun, yr_select R y j (fun r => (R.rm lo y, r)) n (lo + 1)]
        have hnih : ¬(lo + 1 ≤ lo ∧ lo < lo + 1 + n ∧ j < lo + 1 + n ∧ 0 < R.rm lo y ∧ 0 < R.rm j y) := by omega
        rw [if_neg hnih, List.append_nil]
        by_cases hc : lo + 1 ≤ j ∧ j < lo + 1 + n ∧ 0 < R.rm j y
        · rw [if_pos hc, if_pos ⟨le_rfl, by omega, by omega, h, hc.2.2⟩]
        · rw [if_neg hc, if_neg]
          rintro ⟨a, b, c, d, e⟩
          exact hc ⟨by omega, by omega, e⟩
      · have hfun : ((fun p : (Nat × Nat) × (Nat × Nat) => if p.1.1 = i ∧ p.2.1 = j then some (p.1.2, p.2.2) else none) ∘ (fun b => ((lo, R.rm lo y), b))) = (fun _ : Nat × Nat => none) := by
          funext b
          simp [hi]
        rw [hfun]
        rw [List.filterMap_eq_nil_iff.mpr (fun a _ => rfl), List.nil_append]
        by_cases hc : lo + 1 ≤ i ∧ i < lo + 1 + n ∧ j < lo + 1 + n ∧ 0 < R.rm i y ∧ 0 < R.rm j y
        · rw [if_pos hc, if_pos ⟨by omega, by omega, by omega, hc.2.2.2⟩]
        · rw [if_neg hc, if_neg]
          rintro ⟨a, b, c, d, e⟩
          exact hc ⟨by omega, by omega, by omega, d, e⟩
    · rw [@List.filterMap_cons_none (Nat) (Nat × Nat) (fun x => if 0 < R.rm x y then some (x, R.rm x y) else none) lo (List.range' (lo + 1) n) (if_neg h)]
      rw [ih (lo + 1)]
      by_cases hc : lo + 1 ≤ i ∧ i < lo + 1 + n ∧ j < lo + 1 + n ∧ 0 < R.rm i y ∧ 0 < R.rm j y
      · rw [if_pos hc, if_pos ⟨by omega, by omega, by omega, hc.2.2.2⟩]
      · rw [if_neg hc, if_neg]
        rintro ⟨a, b, c, d, e⟩
        have hne : lo ≠ i := by rintro rfl; exact h d
        exact hc ⟨by omega, by omega, by omega, d, e⟩

/-- Per-`y` contribution at key `(i, j)` with `i < j` in range: one pair
`(rm[i, y], rm[j, y])` when both rated `y`, none otherwise. -/
theorem coPairs_per_y (R : RatingRelation) (y i j : Nat)
    (h1 : 1 ≤ i) (hij : i < j) (hj : j ≤ R.lastX) :
    (pairs (R.yr y)).filterMap
        (fun p => if p.1.1 = i ∧ p.2.1 = j then some (p.1.2, p.2.2) else none) =
      if 0 < R.rm i y ∧ 0 < R.rm j y then [(R.rm i y, R.rm j y)] else [] := by
  rw [RatingRelation.yr, pairs_select R y i j hij R.lastX 1]
  by_cases hc : 0 < R.rm i y ∧ 0 < R.rm j y
  · rw [if_pos ⟨h1, by omega, by omega, hc.1, hc.2⟩, if_pos hc]
  · rw [if_neg, if_neg hc]
    rintro ⟨a, b, c, d, e⟩
    exact hc ⟨d, e⟩

/-- A `flatMap` of conditional singletons is a `filter`-then-`map`. -/
theorem flatMap_if_singleton {α : Type} (l : List Nat) (c : Nat → Prop)
    [DecidablePred c] (f : Nat → α) :
    (l.flatMap (fun y => if c y then [f y] else [])) =
      (l.filter (fun y => decide (c y))).map f := by
  induction l with
  | nil => rfl
  | cons a l ih =>
    rw [List.flatMap_cons, List.filter_cons]
    by_cases h : c a
    · simp only [if_pos h, decide_eq_true h, if_pos]
      rw [List.map_cons, ih]
      rfl
    · simp only [if_neg h, decide_eq_false h]
      rw [List.nil_append, ih]
      rfl

/-- The accumulated contribution list at key `(i, j)`, `i < j` in range,
is exactly the rating pairs over the shared `y` entities, in `y` order. -/
theorem coPairs_char (R : RatingRelation) (i j : Nat)
    (h1 : 1 ≤ i) (hij : i < j) (hj : j ≤ R.lastX) :
    coPairs R i j =
      ((List.range' 1 R.lastY).filter
        (fun y => decide (0 < R.rm i y ∧ 0 < R.rm j y))).map
        (fun y => (R.rm i y, R.rm j y)) := by
  unfold coPairs
  rw [List.flatMap_def,
    List.map_congr_left (fun y _ => coPairs_per_y R y i j h1 hij hj),
    ← List.flatMap_def, flatMap_if_singleton]

/-- For `i < j` in range the accumulator `freq` is the co-rating count. -/
theorem freq_eq_coCount (R : RatingRelation) (i j : Nat)
    (h1 : 1 ≤ i) (hij : i < j) (hj : j ≤ R.lastX) :
    freq R i j = coCount R i j := by
  unfold freq coCount
  rw [coPairs_char R i j h1 hij hj, List.length_map]

/-- For `i < j` in range the accumulator `sqDiff` is the co-rating squared
difference sum. -/
theorem sqDiff_eq_coSqDiff (R : RatingRelation) (i j : Nat)
    (h1 : 1 ≤ i) (hij : i < j) (hj : j ≤ R.lastX) :
    sqDiff R i j = coSqDiff R i j := by
  unfold sqDiff coSqDiff
  rw [coPairs_char R i j h1 hij hj, List.map_map]
  rfl

/-- The co-rating count is symmetric in its two entities. -/
theorem coCount_comm (R : RatingRelation) (i j : Nat) :
    coCount R i j = coCount R j i := by
  unfold coCount
  have hfil : List.filter (fun y => decide (0 < R.rm i y ∧ 0 < R.rm j y)) (List.range' 1 R.lastY)
      = List.filter (fun y => decide (0 < R.rm j y ∧ 0 < R.rm i y)) (List.range' 1 R.lastY) :=
    List.filter_congr (fun y _ => decide_eq_decide.mpr and_comm)
  rw [hfil]

/-- The co-rating squared-difference sum is symmetric. -/
theorem coSqDiff_comm (R : RatingRelation) (i j : Nat) :
    coSqDiff R i j = coSqDiff R j i := by
  unfold coSqDiff
  have hfil : List.filter (fun y => decide (0 < R.rm i y ∧ 0 < R.rm j y)) (List.range' 1 R.lastY)
      = List.filter (fun y => decide (0 < R.rm j y ∧ 0 < R.rm i y)) (List.range' 1 R.lastY) :=
    List.filter_congr (fun y _ => decide_eq_decide.mpr and_comm)
  rw [hfil]
  congr 1
  apply List.map_congr_left
  intro y _
  ring

/-- The first components of a `yr` view are strictly increasing. -/
theorem yr_pairwise (R : RatingRelation) (y : Nat) :
    (R.yr y).Pairwise (fun p q => p.1 < q.1) := by
  rw [RatingRelation.yr]
  apply List.Pairwise.filterMap
  · intro a a' hlt b hb b' hb'
    by_cases h : 0 < R.rm a y
    · by_cases h' : 0 < R.rm a' y
      · rw [if_pos h] at hb
        rw [if_pos h'] at hb'
        simp only [Option.mem_def, Option.some.injEq] at hb hb'
        rw [← hb, ← hb']
        exact hlt
      · rw [if_neg h'] at hb'
        cases hb'
    · rw [if_neg h] at hb
      cases hb
  · exact List.pairwise_lt_range' 1 R.lastX

/-- Every pair produced by `combinations` from a pairwise-related list is
related. -/
theorem pairs_pairwise {α : Type} (r : α → α → Prop) :
    ∀ (l : List α), l.Pairwise r → ∀ p ∈ pairs l, r p.1 p.2 := by
  intro l
  induction l with
  | nil =>
    intro _ p hp
    simp [pairs] at hp
  | cons a l ih =>
    intro hl p hp
    rw [show pairs (a :: l) = l.map (fun b => (a, b)) ++ pairs l from rfl, List.mem_append] at hp
    rcases hp with hp | hp
    · rw [List.mem_map] at hp
      obtain ⟨b, hb, rfl⟩ := hp
      exact (List.pairwise_cons.mp hl).1 b hb
    · exact ih (List.pairwise_cons.mp hl).2 p hp

/-- Nothing is ever accumulated at a diagonal key: `combinations` never
pairs an entity with itself. -/
theorem coPairs_diag (R : RatingRelation) (i : Nat) : coPairs R i i = [] := by
  unfold coPairs
  rw [List.flatMap_eq_nil_iff]
  intro y _
  rw [List.filterMap_eq_nil_iff]
  intro p hp
  have hlt := pairs_pairwise (fun p q : Nat × Nat => p.1 < q.1) (R.yr y) (yr_pairwise R y) p hp
  rw [if_neg]
  rintro ⟨a, b⟩
  omega

/-- The MSD pair value on the diagonal is `0`: `freq[i, i] = 0` and
`sqDiff[i, i] = 0`, so the `sqDiff == 0` branch writes `freq = 0`. -/
theorem msdVal_diag (R : RatingRelation) (i : Nat) : msdVal R i i = 0 := by
  unfold msdVal freq sqDiff
  rw [coPairs_diag]
  simp

/-! ### Claim C2: MSD matrix entries -/

/-- C2: for every pair of distinct valid X-entities `i`, `j`, the built
MSD similarity matrix entry equals the co-rating count when the
accumulated squared difference is `0` (in particular when the two
entities agree on every shared `y`), `freq / sqDiff` otherwise, and `0`
when the co-rating count is `0`. -/
theorem c2_msd_matrix_entries (R : RatingRelation) (i j : Nat)
    (h1 : 1 ≤ i) (h2 : i ≤ R.lastX) (h3 : 1 ≤ j) (h4 : j ≤ R.lastX) (hne : i ≠ j) :
    constructMSDSimMat R (i, j) =
      some (if coSqDiff R i j = 0 then (coCount R i j : ℚ)
            else (coCount R i j : ℚ) / (coSqDiff R i j : ℚ)) ∧
    ((∀ y, 1 ≤ y → y ≤ R.lastY → 0 < R.rm i y → 0 < R.rm j y → R.rm i y = R.rm j y) →
      constructMSDSimMat R (i, j) = some (coCount R i j : ℚ)) ∧
    (coCount R i j = 0 → constructMSDSimMat R (i, j) = some 0) := by
  have hmain : constructMSDSimMat R (i, j) =
      some (if coSqDiff R i j = 0 then (coCount R i j : ℚ)
            else (coCount R i j : ℚ) / (coSqDiff R i j : ℚ)) := by
    rcases Nat.lt_or_ge i j with hlt | hge
    · rw [(msd_cell R i j (le_of_lt hlt) h4 h1).1]
      unfold msdVal
      rw [freq_eq_coCount R i j h1 hlt h4, sqDiff_eq_coSqDiff R i j h1 hlt h4]
    · have hgt : j < i := by omega
      rw [(msd_cell R j i (le_of_lt hgt) h2 h3).2]
      unfold msdVal
      rw [freq_eq_coCount R j i h3 hgt h2, sqDiff_eq_coSqDiff R j i h3 hgt h2,
        coCount_comm R j i, coSqDiff_comm R j i]
  have hagree : (∀ y, 1 ≤ y → y ≤ R.lastY → 0 < R.rm i y → 0 < R.rm j y → R.rm i y = R.rm j y) →
      coSqDiff R i j = 0 := by
    intro hag
    unfold coSqDiff
    apply List.sum_eq_zero
    intro z hz
    rw [List.mem_map] at hz
    obtain ⟨y, hy, rfl⟩ := hz
    rw [List.mem_filter] at hy
    have hyr := hy.1
    rw [List.mem_range'_1] at hyr
    have hcond := of_decide_eq_true hy.2
    rw [hag y hyr.1 (by omega) hcond.1 hcond.2]
    ring
  have hczero : coCount R i j = 0 → coSqDiff R i j = 0 := by
    intro h0
    unfold coCount at h0
    unfold coSqDiff
    rw [List.length_eq_zero] at h0
    rw [h0]
    rfl
  refine ⟨hmain, fun hag => ?_, fun h0 => ?_⟩
  · rw [hmain, if_pos (hagree hag)]
  · rw [hmain, if_pos (hczero h0), h0]
    norm_num

/-- Concrete relation for the C2 witness: entities `1`, `2` share three
`y` entities with ratings `4,4,2` against `4,4,5`. -/
def c2R : RatingRelation :=
  ⟨2, 3, fun x y =>
    if x = 1 then (if y = 1 then 4 else if y = 2 then 4 else if y = 3 then 2 else 0)
    else if x = 2 then (if y = 1 then 4 else if y = 2 then 4 else if y = 3 then 5 else 0)
    else 0⟩

/-- Witness for C2 at `c2R`: `freq = 3`, `sqDiff = 9`, entry `3 / 9`. -/
theorem c2_msd_matrix_entries_witness :
    constructMSDSimMat c2R (1, 2) = some ((3 : ℚ) / 9) := by
  have h := (c2_msd_matrix_entries c2R 1 2 (by decide) (by decide) (by decide)
    (by decide) (by decide)).1
  rw [h, if_neg (by decide),
    show coCount c2R 1 2 = 3 from by decide,
    show coSqDiff c2R 1 2 = 9 from by decide]
  norm_num

/-! ### Claim C3: diagonal conventions -/

/-- Concrete relation for the C3 counterexample. -/
def c3R : RatingRelation := ⟨1, 1, fun x y => if x = 1 ∧ y = 1 then 3 else 0⟩

/-- C3 counterexample: the claim says the MSD diagonal is a large
sentinel (the `simMat[xi, xi] = 100` write), but the inner loop of
`constructMSDSimMat` starts at `xj = xi` and immediately overwrites it:
the final diagonal entry is `0`, not `100`. -/
theorem c3_msd_diag_counterexample :
    constructMSDSimMat c3R (1, 1) = some 0 ∧ some (0 : ℚ) ≠ some (100 : ℚ) := by
  constructor
  · rw [(msd_cell c3R 1 1 le_rfl (by decide) le_rfl).1, msdVal_diag]
  · intro h
    rw [Option.some.injEq] at h
    norm_num at h

/-- C3 amended: for every valid X-entity, the cosine diagonal is `1`
(whether or not the entity has ratings) and the MSD diagonal is `0` (the
`100` sentinel assignment is overwritten by the inner loop). -/
theorem c3_diag_amended (sq : ℚ → ℚ) (R : RatingRelation) (i : Nat)
    (h1 : 1 ≤ i) (h2 : i ≤ R.lastX) :
    constructCosineSimMat sq R (i, i) = some 1 ∧
    constructMSDSimMat R (i, i) = some 0 := by
  refine ⟨cosine_diag sq R i h1 h2, ?_⟩
  rw [(msd_cell R i i le_rfl h2 h1).1, msdVal_diag]

/-- Witness for the amended C3 at `c3R`. -/
theorem c3_diag_amended_witness :
    constructCosineSimMat (fun q => q) c3R (1, 1) = some 1 ∧
    constructMSDSimMat c3R (1, 1) = some 0 :=
  c3_diag_amended (fun q => q) c3R 1 (by decide) (by decide)

/-! ### Claim C4: symmetry of all three metrics -/

/-- A `filterMap` keeping elements unchanged is a `filter`. -/
theorem filterMap_if_self (l : List Nat) (c : Nat → Prop) [DecidablePred c] :
    l.filterMap (fun a => if c a then some a else none) =
      l.filter (fun a => decide (c a)) := by
  induction l with
  | nil => rfl
  | cons a l ih =>
    by_cases h : c a
    · rw [@List.filterMap_cons_some Nat Nat (fun a => if c a then some a else none) a l a (if_pos h),
        List.filter_cons, if_pos (by simpa using h), ih]
    · rw [@List.filterMap_cons_none Nat Nat (fun a => if c a then some a else none) a l (if_neg h),
        List.filter_cons, if_neg (by simpa using h), ih]

/-- The `Yij` list of `simMSDClone` is the ordered list of `y` entities
rated by both `xi` and `xj`. -/
theorem cloneYij_char (R : RatingRelation) (xi xj : Nat) :
    (R.xr xi).filterMap (fun p => if 0 < R.rm xj p.1 then some p.1 else none) =
      (List.range' 1 R.lastY).filter (fun y => decide (0 < R.rm xi y ∧ 0 < R.rm xj y)) := by
  rw [RatingRelation.xr, List.filterMap_filterMap]
  have hfun : (fun a => (if 0 < R.rm xi a then some (a, R.rm xi a) else none).bind
      (fun p => if 0 < R.rm xj p.1 then some p.1 else none)) =
      (fun a => if 0 < R.rm xi a ∧ 0 < R.rm xj a then some a else none) := by
    funext a
    by_cases h1 : 0 < R.rm xi a
    · by_cases h2 : 0 < R.rm xj a <;> simp [h1, h2]
    · simp [h1]
  rw [hfun, filterMap_if_self]

/-- Sum of pointwise negations. -/
theorem sum_map_neg_q (L : List Nat) (f : Nat → ℚ) :
    (L.map (fun y => -(f y))).sum = -((L.map f).sum) := by
  induction L with
  | nil => simp
  | cons a l ih =>
    rw [List.map_cons, List.map_cons, List.sum_cons, List.sum_cons, ih]
    ring

/-- `simMSDClone` is symmetric: the shared-`y` list is the same in both
orders, the mean difference is negated, and the squared deviations are
unchanged. -/
theorem simMSDClone_comm (R : RatingRelation) (xi xj : Nat) :
    simMSDClone R xi xj = simMSDClone R xj xi := by
  unfold simMSDClone
  rw [cloneYij_char R xi xj, cloneYij_char R xj xi]
  have hfil : (List.range' 1 R.lastY).filter (fun y => decide (0 < R.rm xj y ∧ 0 < R.rm xi y))
      = (List.range' 1 R.lastY).filter (fun y => decide (0 < R.rm xi y ∧ 0 < R.rm xj y)) :=
    List.filter_congr (fun y _ => decide_eq_decide.mpr and_comm)
  rw [hfil]
  set L := (List.range' 1 R.lastY).filter (fun y => decide (0 < R.rm xi y ∧ 0 < R.rm xj y)) with hL
  by_cases h0 : L = []
  · simp [h0]
  · rw [if_neg h0, if_neg h0]
    dsimp only
    have hneg : (L.map (fun y => (R.rm xj y : ℚ) - (R.rm xi y : ℚ))).sum
        = -((L.map (fun y => (R.rm xi y : ℚ) - (R.rm xj y : ℚ))).sum) := by
      rw [List.map_congr_left (fun y _ => by ring :
        ∀ y ∈ L, (R.rm xj y : ℚ) - (R.rm xi y : ℚ) = -(((R.rm xi y : ℚ) - (R.rm xj y : ℚ))))]
      exact sum_map_neg_q L _
    have hssd : (L.map (fun y => ((R.rm xj y : ℚ) - (R.rm xi y : ℚ) -
        ((L.map (fun y => (R.rm xj y : ℚ) - (R.rm xi y : ℚ))).sum) / (L.length : ℚ)) ^ 2)).sum
        = (L.map (fun y => ((R.rm xi y : ℚ) - (R.rm xj y : ℚ) -
        ((L.map (fun y => (R.rm xi y : ℚ) - (R.rm xj y : ℚ))).sum) / (L.length : ℚ)) ^ 2)).sum := by
      rw [hneg]
      apply congrArg
      apply List.map_congr_left
      intro y _
      rw [neg_div]
      ring
    rw [hssd]

/-- C4: for every pair of valid X-entities and every metric (cosine, MSD,
on-demand MSD-with-clone), similarity is symmetric. -/
theorem c4_similarity_symmetric (sq : ℚ → ℚ) (R : RatingRelation) (i j : Nat)
    (h1 : 1 ≤ i) (h2 : i ≤ R.lastX) (h3 : 1 ≤ j) (h4 : j ≤ R.lastX) :
    constructCosineSimMat sq R (i, j) = constructCosineSimMat sq R (j, i) ∧
    constructMSDSimMat R (i, j) = constructMSDSimMat R (j, i) ∧
    simMSDClone R i j = simMSDClone R j i := by
  refine ⟨?_, ?_, simMSDClone_comm R i j⟩
  · rcases lt_trichotomy i j with h | h | h
    · rw [(cosine_cell sq R i j h h4 h1).1, (cosine_cell sq R i j h h4 h1).2]
    · rw [h]
    · rw [(cosine_cell sq R j i h h2 h3).1, (cosine_cell sq R j i h h2 h3).2]
  · rcases lt_trichotomy i j with h | h | h
    · rw [(msd_cell R i j (le_of_lt h) h4 h1).1, (msd_cell R i j (le_of_lt h) h4 h1).2]
    · rw [h]
    · rw [(msd_cell R j i (le_of_lt h) h2 h3).1, (msd_cell R j i (le_of_lt h) h2 h3).2]

/-- Witness for C4 at the concrete relation `c2R`. -/
theorem c4_similarity_symmetric_witness :
    constructCosineSimMat (fun q => q) c2R (1, 2) = constructCosineSimMat (fun q => q) c2R (2, 1) ∧
    constructMSDSimMat c2R (1, 2) = constructMSDSimMat c2R (2, 1) ∧
    simMSDClone c2R 1 2 = simMSDClone c2R 2 1 :=
  c4_similarity_symmetric (fun q => q) c2R 1 2 (by decide) (by decide) (by decide) (by decide)

/-! ### Claim C1: KNN-Collaborative impossibility -/

/-- C1 amended: the estimate is the impossible sentinel `0` whenever no
entity at all (`x0` included) has rated `Y0`, and whenever the selected
neighborhood's similarity weights sum to zero. (As stated, with `x0`
itself allowed to have rated `Y0`, the claim is false: see the
counterexample.) -/
theorem c1_knn_impossible_amended (ub : Bool) (simMat : Mat) (R : RatingRelation) (u0 m0 : Nat) :
    ((∀ x, 1 ≤ x → x ≤ R.lastX → R.rm x (getx0y0 ub u0 m0).2 = 0) →
      estimateBasicCollab ub simMat R u0 m0 = 0) ∧
    ((((sortDesc (simX0list simMat R (getx0y0 ub u0 m0).1 (getx0y0 ub u0 m0).2)).take 40).map
        (fun q => q.2)).sum = 0 →
      estimateBasicCollab ub simMat R u0 m0 = 0) := by
  constructor
  · intro hnone
    unfold estimateBasicCollab
    dsimp only
    have hempty : simX0list simMat R (getx0y0 ub u0 m0).1 (getx0y0 ub u0 m0).2 = [] := by
      unfold simX0list
      rw [List.filter_eq_nil_iff.mpr, List.map_nil]
      intro a ha
      rw [List.mem_range'_1] at ha
      simp only [decide_eq_true_eq]
      rw [hnone a ha.1 (by omega)]
      omega
    rw [hempty, if_pos rfl]
  · intro hsum
    unfold estimateBasicCollab npAverageOr0
    dsimp only
    by_cases hemp : simX0list simMat R (getx0y0 ub u0 m0).1 (getx0y0 ub u0 m0).2 = []
    · rw [if_pos hemp]
    · rw [if_neg hemp, if_pos hsum]

/-- Empty concrete relation for the first half of the C1 witness. -/
def c1Ra : RatingRelation := ⟨1, 1, fun _ _ => 0⟩

/-- Concrete relation where entity `1` rated `y = 1` (paired with an
all-zero similarity matrix for the second half of the C1 witness). -/
def c1Rb : RatingRelation := ⟨1, 1, fun x y => if x = 1 ∧ y = 1 then 4 else 0⟩

/-- Witness for the amended C1: nobody rated the query context in `c1Ra`
(estimate `0`); in `c1Rb` the single neighbor carries similarity weight
`0`, the weights sum to zero, and the estimate is again `0`. -/
theorem c1_knn_impossible_amended_witness :
    estimateBasicCollab true (fun _ => none) c1Ra 1 1 = 0 ∧
    estimateBasicCollab true (fun _ => some 0) c1Rb 1 1 = 0 := by
  constructor
  · exact (c1_knn_impossible_amended true (fun _ => none) c1Ra 1 1).1 (fun x _ _ => rfl)
  · refine (c1_knn_impossible_amended true (fun _ => some 0) c1Rb 1 1).2 ?_
    rw [show ((sortDesc (simX0list (fun _ => some 0) c1Rb (getx0y0 true 1 1).1
      (getx0y0 true 1 1).2)).take 40).map (fun q => q.2) = [(0 : ℚ)] from rfl]
    norm_num

/-- Concrete relation for the C1 counterexample: `x0 = 1` itself rated
`y0 = 1` (rating `4`) and no other entity did. -/
def c1Rc : RatingRelation :=
  ⟨2, 2, fun x y => if x = 1 ∧ y = 1 then 4 else if x = 2 ∧ y = 2 then 5 else 0⟩

/-- C1 counterexample: in `c1Rc` no entity other than `x0 = 1` has rated
`y0 = 1`, yet with the cosine similarity matrix the estimate is `4` (the
neighborhood contains `x0` itself with self-similarity `1`), not the
impossible sentinel `0`. -/
theorem c1_knn_impossible_counterexample :
    c1Rc.rm 2 1 = 0 ∧
    estimateBasicCollab true (constructCosineSimMat (fun q => q) c1Rc) c1Rc 1 1 = 4 ∧
    (4 : ℚ) ≠ 0 := by
  refine ⟨rfl, ?_, by norm_num⟩
  unfold estimateBasicCollab npAverageOr0
  dsimp only
  rw [show simX0list (constructCosineSimMat (fun q => q) c1Rc) c1Rc (getx0y0 true 1 1).1
    (getx0y0 true 1 1).2 = [(1, (1 : ℚ))] from rfl]
  rw [show sortDesc [(1, (1 : ℚ))] = [(1, (1 : ℚ))] from rfl]
  norm_num [show c1Rc.rm 1 (getx0y0 true 1 1).2 = 4 from rfl]

/-! ### Claim C5: BaselineOnly exactness -/

/-- C5: the BaselineOnly prediction is exactly
`mu + xBias[X0] + yBias[Y0]` for the orientation-reinterpreted query,
for every fitting method, with no internal clamping and no failure
mode. -/
theorem c5_baseline_only_exact (R : RatingRelation) (ub : Bool) (method : String) (u0 m0 : Nat) :
    estimateBaselineOnly R ub method u0 m0 =
      mu R + (fitBiases R ub method).1 (getx0y0 ub u0 m0).1 +
        (fitBiases R ub method).2 (getx0y0 ub u0 m0).2 := rfl

/-! ### Claim C6: ALS fixed point on a constant relation -/

/-- Membership in a `yr` view: the stored rating is the matrix entry and
it is positive. -/
theorem mem_yr (R : RatingRelation) (y : Nat) (p : Nat × Nat) (hp : p ∈ R.yr y) :
    0 < R.rm p.1 y ∧ p.2 = R.rm p.1 y := by
  rw [RatingRelation.yr, List.mem_filterMap] at hp
  obtain ⟨a, _, hfa⟩ := hp
  by_cases h : 0 < R.rm a y
  · rw [if_pos h, Option.some.injEq] at hfa
    subst hfa
    exact ⟨h, rfl⟩
  · rw [if_neg h] at hfa
    cases hfa

/-- Membership in an `xr` view: the stored rating is the matrix entry and
it is positive. -/
theorem mem_xr (R : RatingRelation) (x : Nat) (p : Nat × Nat) (hp : p ∈ R.xr x) :
    0 < R.rm x p.1 ∧ p.2 = R.rm x p.1 := by
  rw [RatingRelation.xr, List.mem_filterMap] at hp
  obtain ⟨a, _, hfa⟩ := hp
  by_cases h : 0 < R.rm x a
  · rw [if_pos h, Option.some.injEq] at hfa
    subst hfa
    exact ⟨h, rfl⟩
  · rw [if_neg h] at hfa
    cases hfa

/-- The global mean of a non-empty relation whose present ratings all
equal `v` is `v`. -/
theorem mu_const (R : RatingRelation) (v : Nat)
    (hv : ∀ a b, 0 < R.rm a b → R.rm a b = v)
    (x1 y1 : Nat) (hx : x1 ≤ R.lastX) (hy : y1 ≤ R.lastY) (hr : 0 < R.rm x1 y1) :
    mu R = v := by
  unfold mu
  dsimp only
  set rs := (List.range' 0 (R.lastX + 1)).flatMap
    (fun x => ((List.range' 0 (R.lastY + 1)).map (R.rm x)).filter (fun r => decide (0 < r))) with hrs
  have hmem : ∀ r ∈ rs, r = v := by
    intro r hrm
    rw [hrs, List.mem_flatMap] at hrm
    obtain ⟨a, _, hra⟩ := hrm
    rw [List.mem_filter, List.mem_map] at hra
    obtain ⟨⟨b, _, hab⟩, hpos⟩ := hra
    subst hab
    exact hv a b (of_decide_eq_true hpos)
  have hcast : ∀ q ∈ rs.map (fun r : Nat => (r : ℚ)), q = (v : ℚ) := by
    intro q hq
    rw [List.mem_map] at hq
    obtain ⟨r, hrm, rfl⟩ := hq
    rw [hmem r hrm]
  have hsum : (rs.map (fun r : Nat => (r : ℚ))).sum = (rs.length : ℚ) * v := by
    rw [List.sum_eq_card_nsmul _ _ hcast, List.length_map, nsmul_eq_mul]
  have hne : rs ≠ [] := by
    apply List.ne_nil_of_mem (a := R.rm x1 y1)
    rw [hrs, List.mem_flatMap]
    refine ⟨x1, by rw [List.mem_range'_1]; omega, ?_⟩
    rw [List.mem_filter, List.mem_map]
    exact ⟨⟨y1, by rw [List.mem_range'_1]; omega, rfl⟩, decide_eq_true hr⟩
  have hlen : (rs.length : ℚ) ≠ 0 := by
    rw [ne_eq, Nat.cast_eq_zero, List.length_eq_zero]
    exact hne
  rw [hsum, mul_comm, mul_div_assoc, div_self hlen, mul_one]

/-- C6: for a non-empty relation in which every present rating equals the
constant `v`, the fitted mean is `v` and one ALS iteration (y-sweep then
x-sweep with regularized denominators) leaves every bias entry at `0`. -/
theorem c6_als_constant_fixed_point (R : RatingRelation) (v : Nat) (regx regy : ℚ)
    (x y x1 y1 : Nat)
    (hv : ∀ a b, 0 < R.rm a b → R.rm a b = v)
    (hx : x1 ≤ R.lastX) (hy : y1 ≤ R.lastY) (hr : 0 < R.rm x1 y1) :
    mu R = v ∧
    (alsSweep R (mu R) regx regy (fun _ => 0, fun _ => 0)).1 x = 0 ∧
    (alsSweep R (mu R) regx regy (fun _ => 0, fun _ => 0)).2 y = 0 := by
  have hmu : mu R = v := mu_const R v hv x1 y1 hx hy hr
  have hyB : ∀ y', alsY R (mu R) regy (fun _ => 0) y' = 0 := by
    intro y'
    unfold alsY
    by_cases hc : 1 ≤ y' ∧ y' ≤ R.lastY
    · rw [if_pos hc]
      have hz : ((R.yr y').map (fun p => (p.2 : ℚ) - mu R - (fun _ => (0 : ℚ)) p.1)).sum = 0 := by
        apply List.sum_eq_zero
        intro z hz
        rw [List.mem_map] at hz
        obtain ⟨p, hp, rfl⟩ := hz
        have hm := mem_yr R y' p hp
        rw [hm.2, hv p.1 y' hm.1, hmu]
        ring
      rw [hz, zero_div]
    · rw [if_neg hc]
  refine ⟨hmu, ?_, hyB y⟩
  show alsX R (mu R) regx (alsY R (mu R) regy (fun _ => 0)) x = 0
  unfold alsX
  by_cases hc : 1 ≤ x ∧ x ≤ R.lastX
  · rw [if_pos hc]
    have hz : ((R.xr x).map
        (fun p => (p.2 : ℚ) - mu R - alsY R (mu R) regy (fun _ => 0) p.1)).sum = 0 := by
      apply List.sum_eq_zero
      intro z hz
      rw [List.mem_map] at hz
      obtain ⟨p, hp, rfl⟩ := hz
      have hm := mem_xr R x p hp
      rw [hm.2, hv x p.1 hm.1, hyB p.1, hmu]
      ring
    rw [hz, zero_div]
  · rw [if_neg hc]

/-- Concrete constant relation for the C6 witness. -/
def c6R : RatingRelation := ⟨1, 1, fun x y => if x = 1 ∧ y = 1 then 3 else 0⟩

/-- Witness for C6 at `c6R` with the source's ALS regularizers. -/
theorem c6_als_constant_fixed_point_witness :
    mu c6R = 3 ∧
    (alsSweep c6R (mu c6R) 15 10 (fun _ => 0, fun _ => 0)).1 1 = 0 ∧
    (alsSweep c6R (mu c6R) 15 10 (fun _ => 0, fun _ => 0)).2 1 = 0 := by
  have hv : ∀ a b, 0 < c6R.rm a b → c6R.rm a b = 3 := by
    intro a b h
    rw [show c6R.rm a b = if a = 1 ∧ b = 1 then 3 else 0 from rfl] at h ⊢
    split_ifs at h ⊢
    · rfl
    · omega
  have := c6_als_constant_fixed_point c6R 3 15 10 1 1 1 1 hv (by decide) (by decide) (by decide)
  rw [show ((3 : Nat) : ℚ) = (3 : ℚ) from by norm_num] at this
  exact this

/-! ### Claim C7: Random estimator histogram (code bug) -/

/-- Failing relation for C7: the single rating sits at `x = lastX`,
outside the loops `range(1, lastXi) × range(1, lastYi)` of
`AlgoRandom.__init__`. -/
def c7R : RatingRelation := ⟨2, 2, fun x y => if x = 2 ∧ y = 1 then 5 else 0⟩

/-- C7, code-bug evaluation: the histogram built by the code counts
nothing on `c7R` (so its normalization `fq / sum(fqs)` divides by zero),
while the histogram over the whole relation that the claim describes
counts the one rating of value `5`. -/
theorem c7_random_histogram_gap :
    (fqs c7R 1, fqs c7R 2, fqs c7R 3, fqs c7R 4, fqs c7R 5) = (0, 0, 0, 0, 0) ∧
    fqsSpec c7R 5 = 1 := by
  decide

/-! ### Claim C8: Clone detection, concrete scenario -/

/-- Concrete relation for C8: `x0 = 1` rated `y = 1, 2, 3` with `3, 4, 5`;
entity `2` rated them `1, 2, 3` and the query `y0 = 4` with `4`. -/
def c8R : RatingRelation :=
  ⟨2, 4, fun x y =>
    if x = 1 then (if y = 1 then 3 else if y = 2 then 4 else if y = 3 then 5 else 0)
    else if x = 2 then
      (if y = 1 then 1 else if y = 2 then 2 else if y = 3 then 3 else if y = 4 then 4 else 0)
    else 0⟩

/-- C8: `[3,4,5]` and `[1,2,3]` pass the 2-clone test (`Σ|2-2| = 0 ≤ 3`);
on `c8R` the common ratings are exactly those vectors, candidate
`4 + 2 = 6` is produced, and the estimate is the unweighted mean of the
candidate list. -/
theorem c8_clone_concrete :
    isClone [3, 4, 5] [1, 2, 3] 2 = true ∧
    commonRatings c8R 1 2 = [(3, 1), (4, 2), (5, 3)] ∧
    (6 : ℤ) ∈ cloneCandidates c8R 1 4 ∧
    estimateClone c8R true 1 4 =
      ((cloneCandidates c8R 1 4).map (fun c : Int => (c : ℚ))).sum /
        ((cloneCandidates c8R 1 4).length : ℚ) := by
  refine ⟨by decide, by decide, by decide, ?_⟩
  show (if cloneCandidates c8R 1 4 = [] then (0 : ℚ)
    else ((cloneCandidates c8R 1 4).map (fun c : Int => (c : ℚ))).sum /
      ((cloneCandidates c8R 1 4).length : ℚ)) = _
  rw [if_neg (by decide : ¬cloneCandidates c8R 1 4 = [])]

/-! ### Claim C10: a genuine estimate of 0 collides with the sentinel -/

/-- Concrete relation for C10: `x0 = 1` rated `y = 1..3` with `1`;
entity `2` rated them with `2` and the query `y0 = 4` with `1`. The
satisfying clone offsets are `-2, -1, 0`, giving candidates `-1, 0, 1`
whose mean is exactly `0`. -/
def c10R : RatingRelation :=
  ⟨2, 4, fun x y =>
    if x = 1 then (if 1 ≤ y ∧ y ≤ 3 then 1 else 0)
    else if x = 2 then (if 1 ≤ y ∧ y ≤ 3 then 2 else if y = 4 then 1 else 0)
    else 0⟩

/-- C10: the Clone estimator produces the genuine numeric estimate `0`
(mean of the non-empty candidate list `[-1, 0, 1]`), which is
indistinguishable from the impossible sentinel: `updatePreds` records it
as `wasImpossible` and substitutes the default value `3`. -/
theorem c10_sentinel_collision :
    cloneCandidates c10R 1 4 = [-1, 0, 1] ∧
    estimateClone c10R true 1 4 = 0 ∧
    updatePreds (estimateClone c10R true 1 4) = (true, 3) := by
  have h1 : cloneCandidates c10R 1 4 = [-1, 0, 1] := by decide
  have h2 : estimateClone c10R true 1 4 = 0 := by
    show (if cloneCandidates c10R 1 4 = [] then (0 : ℚ)
      else ((cloneCandidates c10R 1 4).map (fun c : Int => (c : ℚ))).sum /
        ((cloneCandidates c10R 1 4).length : ℚ)) = 0
    rw [h1, if_neg (by decide : ¬([-1, 0, 1] : List Int) = [])]
    norm_num
  refine ⟨h1, h2, ?_⟩
  rw [h2]
  unfold updatePreds
  rw [if_pos rfl]

/-! ### Claim C9: determinism of the similarity-matrix build -/

/-- Concrete relation for the C9 theorems. -/
def c9R : RatingRelation := ⟨1, 1, fun x y => if x = 1 ∧ y = 1 then 2 else 0⟩

/-- C9 counterexample: for the accepted metric name `'MSDClone'`,
`constructSimMat` allocates `np.empty` and runs no fill loop: no cell of
the returned matrix is ever written (every cell is `none`, i.e. carries
the unspecified contents of uninitialized memory), so rebuilding is not
guaranteed to give bit-identical float contents. -/
theorem c9_msdclone_unfilled_counterexample :
    constructSimMat (fun q => q) "MSDClone" c9R = some (fun _ => none) := rfl

/-- C9 amended: for the two materialized metrics `'cos'` and `'MSD'` the
build is a pure function of the relation and the metric name — rebuilding
from an unchanged relation yields an identical matrix — and every
in-range cell is actually written. -/
theorem c9_build_deterministic_amended (sq : ℚ → ℚ) (name : String) (R : RatingRelation)
    (i j : Nat) (hname : name = "cos" ∨ name = "MSD")
    (h1 : 1 ≤ i) (h2 : i ≤ R.lastX) (h3 : 1 ≤ j) (h4 : j ≤ R.lastX) :
    constructSimMat sq name R = constructSimMat sq name R ∧
    (∃ m v, constructSimMat sq name R = some m ∧ m (i, j) = some v) := by
  refine ⟨rfl, ?_⟩
  rcases hname with h | h
  · subst h
    refine ⟨constructCosineSimMat sq R, ?_⟩
    have hm : constructSimMat sq "cos" R = some (constructCosineSimMat sq R) := rfl
    rcases lt_trichotomy i j with hij | hij | hij
    · exact ⟨cosVal sq R i j, hm, (cosine_cell sq R i j hij h4 h1).1⟩
    · subst hij
      exact ⟨1, hm, cosine_diag sq R i h1 h2⟩
    · exact ⟨cosVal sq R j i, hm, (cosine_cell sq R j i hij h2 h3).2⟩
  · subst h
    refine ⟨constructMSDSimMat R, ?_⟩
    have hm : constructSimMat sq "MSD" R = some (constructMSDSimMat R) := rfl
    rcases le_or_lt i j with hij | hij
    · exact ⟨msdVal R i j, hm, (msd_cell R i j hij h4 h1).1⟩
    · exact ⟨msdVal R j i, hm, (msd_cell R j i (le_of_lt hij) h2 h3).2⟩

/-- Witness for the amended C9 at `c9R` with the MSD metric. -/
theorem c9_build_deterministic_amended_witness :
    constructSimMat (fun q => q) "MSD" c9R = constructSimMat (fun q => q) "MSD" c9R ∧
    (∃ m v, constructSimMat (fun q => q) "MSD" c9R = some m ∧ m (1, 1) = some v) :=
  c9_build_deterministic_amended (fun q => q) "MSD" c9R 1 1 (Or.inr rfl)
    (by decide) (by decide) (by decide) (by decide)
